import Mathlib

/-!
Verification development for the worldplace place-grid core.

The Python source is shallowly embedded: floats are modelled as exact
rationals (ℚ), Python `int()` conversion as truncation toward zero,
`datetime` values as abstract ℕ ticks, and the Mongo collection as a
`List BlockInDB` threaded explicitly through the storage operations.
String formatting (f-strings with fixed precision) is modelled by an
explicit decimal renderer with round-to-nearest, ties-to-even.
-/

namespace Worldplace

/-- Quantization step: `__STEP__ = 0.0001` in src/place/__init__.py, as an
exact rational. -/
def STEP : ℚ := 1 / 10000

/-- Scale: `__SCALE__ = int(1 / __STEP__)`, which evaluates to 10000. -/
def SCALE : ℤ := 10000

/-- Python `int()` applied to a number truncates toward zero. -/
def ratTrunc (q : ℚ) : ℤ := if 0 ≤ q then ⌊q⌋ else ⌈q⌉

/-- `coord_to_index(value) = int(value * __SCALE__)` of src/place/__init__.py. -/
def coord_to_index (value : ℚ) : ℤ := ratTrunc (value * (SCALE : ℚ))

/-- `index_to_coord(index) = float(index) * __STEP__` of src/place/__init__.py. -/
def index_to_coord (index : ℤ) : ℚ := (index : ℚ) * STEP

/-- Decimal digit character for a digit 0..9. -/
def digitChar : ℕ → Char
  | 0 => '0'
  | 1 => '1'
  | 2 => '2'
  | 3 => '3'
  | 4 => '4'
  | 5 => '5'
  | 6 => '6'
  | 7 => '7'
  | 8 => '8'
  | _ => '9'

/-- Big-endian decimal digit list of a natural number, as Python `str(n)`
renders a non-negative int. -/
def natDigits (n : ℕ) : List Char :=
  if _h : n < 10 then [digitChar n]
  else natDigits (n / 10) ++ [digitChar (n % 10)]
decreasing_by exact Nat.div_lt_self (by omega) (by omega)

/-- Python format spec `0wd` applied to an int: zero-padded to total width
`w`, with the sign (if any) before the padding. -/
def zfill (w : ℕ) (n : ℤ) : List Char :=
  if n < 0 then
    let ds := natDigits (-n).toNat
    '-' :: (List.replicate (w - (ds.length + 1)) '0' ++ ds)
  else
    let ds := natDigits n.toNat
    List.replicate (w - ds.length) '0' ++ ds

/-- `to_block_id(ix, iy)` of src/place/block.py: two fixed-width zero-padded
decimal integers joined by a literal '#'; the width is the digit count of
`str(__SCALE__)` (5 when SCALE = 10000).  The Python `isinstance` int check
is enforced by the ℤ type here. -/
def to_block_id (ix iy : ℤ) : String :=
  let digits := (natDigits SCALE.toNat).length
  String.mk (zfill digits ix ++ '#' :: zfill digits iy)

/-- Python `str.split` with a single-character separator, over the
underlying character list. -/
def splitOnChar (sep : Char) : List Char → List (List Char)
  | [] => [[]]
  | c :: rest =>
    let ps := splitOnChar sep rest
    if c = sep then [] :: ps
    else (c :: ps.headD []) :: ps.tail

/-- Accumulator loop of decimal parsing; any non-digit character fails
(models the `ValueError` of Python `int()`). -/
def parseNatAux (acc : ℕ) : List Char → Option ℕ
  | [] => some acc
  | c :: rest =>
    if c.isDigit then parseNatAux (acc * 10 + (c.toNat - 48)) rest else none

/-- Digit-string payload of Python `int()`: empty input is an error. -/
def parseNat (l : List Char) : Option ℕ :=
  match l with
  | [] => none
  | l => parseNatAux 0 l

/-- Python `int(s)` on the strings produced and consumed by this code: an
optional leading sign followed by decimal digits.  (Python additionally
strips whitespace and allows digit-group underscores; no code path modelled
here produces such strings.) -/
def parseInt (l : List Char) : Option ℤ :=
  match l with
  | [] => none
  | c :: rest =>
    if c = '-' then (parseNat rest).map (fun n => -(n : ℤ))
    else if c = '+' then (parseNat rest).map (fun n => (n : ℤ))
    else (parseNat (c :: rest)).map (fun n => (n : ℤ))

/-- `to_block_index(block_id)` of src/place/block.py: split on '#' and
unpack into exactly two ints; `none` models the raised `ValueError`. -/
def to_block_index (block_id : String) : Option (ℤ × ℤ) :=
  match splitOnChar '#' block_id.toList with
  | [a, b] =>
    match parseInt a, parseInt b with
    | some x, some y => some (x, y)
    | _, _ => none
  | _ => none

/-- Round a rational to the nearest integer, ties to even: the rounding
applied by Python fixed-point float formatting. -/
def roundHE (q : ℚ) : ℤ :=
  if q - ⌊q⌋ < 1 / 2 then ⌊q⌋
  else if 1 / 2 < q - ⌊q⌋ then ⌊q⌋ + 1
  else if ⌊q⌋ % 2 = 0 then ⌊q⌋ else ⌊q⌋ + 1

/-- Left-pad a character list with '0' to width w. -/
def padZeros (w : ℕ) (l : List Char) : List Char :=
  List.replicate (w - l.length) '0' ++ l

/-- Python fixed-point formatting of a float with `prec` fractional digits
(format specs `.4f` and `.2f` in the source). -/
def fmtFixed (prec : ℕ) (q : ℚ) : String :=
  let p : ℤ := (10 : ℤ) ^ prec
  let n : ℤ := roundHE (|q| * (p : ℚ))
  let whole := natDigits (n / p).toNat
  let frac := padZeros prec (natDigits (n % p).toNat)
  String.mk ((if q < 0 then ['-'] else []) ++ whole ++ '.' :: frac)

/-- `format_dd(lat, lon)` of src/place/block.py. -/
def format_dd (lat lon : ℚ) : String :=
  "Lat " ++ fmtFixed 4 lat ++ "°, Lon " ++ fmtFixed 4 lon ++ "°"

/-- `deg = int(abs(value))` inside `to_dms`; `abs` makes `int()` a floor. -/
def dmsDeg (value : ℚ) : ℤ := ⌊|value|⌋

/-- `minutes_full = (abs(value) - deg) * 60` inside `to_dms`. -/
def dmsMinutesFull (value : ℚ) : ℚ := (|value| - (dmsDeg value : ℚ)) * 60

/-- `minutes = int(minutes_full)` inside `to_dms` (non-negative, so floor). -/
def dmsMinutes (value : ℚ) : ℤ := ⌊dmsMinutesFull value⌋

/-- `seconds = (minutes_full - minutes) * 60` inside `to_dms`. -/
def dmsSeconds (value : ℚ) : ℚ := (dmsMinutesFull value - (dmsMinutes value : ℚ)) * 60

/-- Hemisphere letter of `to_dms`: the Python conditional expression
chooses N/S on the latitude axis and E/W on the longitude axis, with
`value >= 0` mapping to N resp. E. -/
def dmsHemi (value : ℚ) (is_lat : Bool) : String :=
  if is_lat then (if 0 ≤ value then "N" else "S")
  else if 0 ≤ value then "E" else "W"

/-- Inner helper `to_dms(value, is_lat)` of `format_dms`. -/
def to_dms (value : ℚ) (is_lat : Bool) : String :=
  String.mk (natDigits (dmsDeg value).toNat) ++ "°" ++
    String.mk (natDigits (dmsMinutes value).toNat) ++ "′" ++
    fmtFixed 2 (dmsSeconds value) ++ "″" ++ dmsHemi value is_lat

/-- `format_dms(lat, lon)` of src/place/block.py. -/
def format_dms (lat lon : ℚ) : String :=
  to_dms lat true ++ ", " ++ to_dms lon false

/-- `BlockMetadata` pydantic model of src/model/block.py: an all-optional
bag of display attributes. -/
structure BlockMetadata where
  author : Option String := none
  author_ip : Option String := none
  color : Option String := none
deriving Repr, DecidableEq

/-- `BlockInDB` of src/model/block.py: the persisted cell.  `create_time`
is a `datetime`, modelled as an abstract clock tick; its
`default_factory=datetime.now` is made explicit by passing the current
tick wherever the source constructs a `BlockInDB` without one. -/
structure BlockInDB where
  ix : ℤ
  iy : ℤ
  create_time : ℕ
  metadata : Option BlockMetadata
deriving Repr, DecidableEq

/-- `BlockModel` of src/model/block.py: the enriched response record. -/
structure BlockModel where
  ix : ℤ
  iy : ℤ
  create_time : ℕ
  metadata : Option BlockMetadata
  lon : ℚ × ℚ
  lat : ℚ × ℚ
  block_id : String
  visible_name_dd : String
  visible_name_dms : String
deriving Repr, DecidableEq

/-- `_create_block_model(block_indb)` of src/place/block.py: the single
enrichment path shared by the single-cell and range code paths. -/
def _create_block_model (b : BlockInDB) : BlockModel :=
  let lon_min := index_to_coord b.ix
  let lon_max := index_to_coord (b.ix + 1)
  let lat_min := index_to_coord b.iy
  let lat_max := index_to_coord (b.iy + 1)
  { ix := b.ix
    iy := b.iy
    create_time := b.create_time
    metadata := b.metadata
    lon := (lon_min, lon_max)
    lat := (lat_min, lat_max)
    block_id := to_block_id b.ix b.iy
    visible_name_dd := format_dd lat_min lon_min
    visible_name_dms := format_dms lat_min lon_min }

/-- `BlockRepository.get_block` via Mongo `find_one` on the (ix, iy) keyed
collection: the first stored match. -/
def find_block (storage : List BlockInDB) (ix iy : ℤ) : Option BlockInDB :=
  storage.find? (fun b => b.ix == ix && b.iy == iy)

/-- `BlockRepository.update_block_metadata`: `update_one` with a `$set` on
the metadata field, replacing it wholesale on the first matching document
(unique per the compound index). -/
def update_block_metadata : List BlockInDB → ℤ → ℤ → BlockMetadata → List BlockInDB
  | [], _, _, _ => []
  | b :: rest, ix, iy, md =>
    if b.ix == ix && b.iy == iy then { b with metadata := some md } :: rest
    else b :: update_block_metadata rest ix iy md

/-- `BlockRepository.get_blocks_in_area`: the inclusive-rectangle range
scan (`$gte`/`$lte` on both index fields). -/
def get_blocks_in_area (storage : List BlockInDB) (min_ix min_iy max_ix max_iy : ℤ) :
    List BlockInDB :=
  storage.filter (fun b =>
    decide (min_ix ≤ b.ix ∧ b.ix ≤ max_ix ∧ min_iy ≤ b.iy ∧ b.iy ≤ max_iy))

/-- Python `range(a, b + 1)` over integers, ascending (empty when b < a). -/
def intRange (a b : ℤ) : List ℤ :=
  (List.range (b + 1 - a).toNat).map (fun (k : ℕ) => a + (k : ℤ))

/-- The dict comprehension keyed on (ix, iy) followed by `.get`: with
duplicate keys the later scan entry wins, exactly as dict insertion. -/
def dictGet (scan : List BlockInDB) (ix iy : ℤ) : Option BlockInDB :=
  scan.foldl (fun acc b => if b.ix == ix && b.iy == iy then some b else acc) none

/-- Core loop of `get_blocks_in_range` of src/place/block.py, applied to an
arbitrary scan result (Mongo promises no particular order): outer ix, inner
iy, synthesizing a transient default `BlockInDB(ix, iy, metadata=None)`
(create_time defaulting to the current tick) for every missing pair. -/
def get_blocks_in_range_scan (scan : List BlockInDB) (now : ℕ)
    (min_ix min_iy max_ix max_iy : ℤ) : List BlockModel :=
  (intRange min_ix max_ix).flatMap (fun ix =>
    (intRange min_iy max_iy).map (fun iy =>
      _create_block_model ((dictGet scan ix iy).getD ⟨ix, iy, now, none⟩)))

/-- `get_blocks_in_range` of src/place/block.py: scan storage, then run the
dense materialization loop. -/
def get_blocks_in_range (storage : List BlockInDB) (now : ℕ)
    (min_ix min_iy max_ix max_iy : ℤ) : List BlockModel :=
  get_blocks_in_range_scan (get_blocks_in_area storage min_ix min_iy max_ix max_iy)
    now min_ix min_iy max_ix max_iy

/-- State-threaded form of `get_blocks_in_range`: the only repository call
on this code path is the read-only `find` (`get_blocks_in_area`), so the
storage state comes back unchanged. -/
def get_blocks_in_range_st (storage : List BlockInDB) (now : ℕ)
    (min_ix min_iy max_ix max_iy : ℤ) : List BlockModel × List BlockInDB :=
  (get_blocks_in_range storage now min_ix min_iy max_ix max_iy, storage)

/-- `get_block(block_id)` of src/place/block.py: parse the id, fetch, fall
back to a transient default, enrich. -/
def get_block (storage : List BlockInDB) (now : ℕ) (block_id : String) :
    Option BlockModel :=
  match to_block_index block_id with
  | none => none
  | some (ix, iy) =>
    some (_create_block_model ((find_block storage ix iy).getD ⟨ix, iy, now, none⟩))

/-- `place_a_block(block_id, metadata)` of src/place/block.py: create the
cell with the given metadata on first write, replace the metadata wholesale
otherwise, then return the re-fetched enriched block together with the new
storage state. -/
def place_a_block (storage : List BlockInDB) (now : ℕ) (block_id : String)
    (md : BlockMetadata) : Option (BlockModel × List BlockInDB) :=
  match to_block_index block_id with
  | none => none
  | some (ix, iy) =>
    let storage' :=
      match find_block storage ix iy with
      | none => storage ++ [⟨ix, iy, now, some md⟩]
      | some _ => update_block_metadata storage ix iy md
    match get_block storage' now block_id with
    | none => none
    | some r => some (r, storage')

/-- Configured range maximum: `__BLOCKS_IN_RANGE_MAXIMUM__` of
src/api/__init__.py (default "1000000"). -/
def BLOCKS_IN_RANGE_MAXIMUM : ℚ := 1000000

/-- API route `get_blocks_in_range` of src/api/block.py: the size check on
the raw float corners, then `sorted` on each corner pair, then
`coord_to_index` conversion, then the core range call.  The 413
`HTTPException` is the error branch. -/
def api_get_blocks_in_range (storage : List BlockInDB) (now : ℕ)
    (x1 y1 x2 y2 : ℚ) : Except String (List BlockModel) :=
  if BLOCKS_IN_RANGE_MAXIMUM ≤ (x2 - x1 + 1) * (y2 - y1 + 1) then
    Except.error "Too many blocks requested, narrow the range"
  else
    let lon_min := min x1 x2
    let lon_max := max x1 x2
    let lat_min := min y1 y2
    let lat_max := max y1 y2
    Except.ok (get_blocks_in_range storage now (coord_to_index lon_min)
      (coord_to_index lat_min) (coord_to_index lon_max) (coord_to_index lat_max))

/-! Helper lemmas. -/

/-- Truncation toward zero agrees with the identity on integers. -/
lemma ratTrunc_intCast (i : ℤ) : ratTrunc (i : ℚ) = i := by
  unfold ratTrunc
  split
  · exact Int.floor_intCast i
  · exact Int.ceil_intCast i

/-- C5: the codec round-trips on every integer index
(`coordToIndex(indexToCoord(i)) == i`), while the forward direction is
lossy: the concrete float 0.00015 quantizes to index 1, which decodes back
to 0.0001 ≠ 0.00015. -/
theorem C5_codec_roundtrip :
    (∀ i : ℤ, coord_to_index (index_to_coord i) = i) ∧
    index_to_coord (coord_to_index (3 / 20000)) ≠ (3 / 20000 : ℚ) := by
  constructor
  · intro i
    have h : index_to_coord i * (SCALE : ℚ) = (i : ℚ) := by
      unfold index_to_coord STEP SCALE
      push_cast
      ring
    unfold coord_to_index
    rw [h, ratTrunc_intCast]
  · have hpos : (0 : ℚ) ≤ 3 / 20000 * ((SCALE : ℤ) : ℚ) := by
      unfold SCALE
      norm_num
    have h1 : coord_to_index (3 / 20000) = 1 := by
      unfold coord_to_index ratTrunc
      rw [if_pos hpos, Int.floor_eq_iff]
      unfold SCALE
      norm_num
    rw [h1]
    unfold index_to_coord STEP
    norm_num

/-- An integer range is empty exactly when its upper bound is below its
lower bound, like Python `range`. -/
lemma intRange_eq_nil {a b : ℤ} (h : b < a) : intRange a b = [] := by
  unfold intRange
  rw [show (b + 1 - a).toNat = 0 by omega]
  rfl

/-- Membership in `intRange` is the inclusive bounds check. -/
lemma mem_intRange {a b x : ℤ} : x ∈ intRange a b ↔ a ≤ x ∧ x ≤ b := by
  unfold intRange
  simp only [List.mem_map, List.mem_range]
  constructor
  · rintro ⟨k, hk, rfl⟩
    omega
  · intro h
    exact ⟨(x - a).toNat, by omega, by omega⟩

/-- `intRange` enumerates without duplicates. -/
lemma intRange_nodup (a b : ℤ) : (intRange a b).Nodup := by
  unfold intRange
  exact (List.nodup_range _).map (fun k1 k2 h => by omega)

/-- Length of an `intRange`. -/
lemma intRange_length (a b : ℤ) : (intRange a b).length = (b + 1 - a).toNat := by
  unfold intRange
  simp

/-- A hit in the comprehension dict carries the looked-up key and comes
from the scan list. -/
lemma dictGet_some {scan : List BlockInDB} {ix iy : ℤ} {b : BlockInDB}
    (h : dictGet scan ix iy = some b) : b ∈ scan ∧ b.ix = ix ∧ b.iy = iy := by
  unfold dictGet at h
  suffices H : ∀ (l : List BlockInDB) (acc : Option BlockInDB),
      (∀ x, acc = some x → x ∈ scan ∧ x.ix = ix ∧ x.iy = iy) →
      (∀ x ∈ l, x ∈ scan) →
      ∀ x, l.foldl (fun acc b => if b.ix == ix && b.iy == iy then some b else acc) acc = some x →
        x ∈ scan ∧ x.ix = ix ∧ x.iy = iy by
    exact H scan none (by simp) (fun x hx => hx) b h
  intro l
  induction l with
  | nil => intro acc hacc _ x hx; exact hacc x hx
  | cons hd tl ih =>
    intro acc hacc hsub x hx
    refine ih _ ?_ (fun y hy => hsub y (List.mem_cons_of_mem _ hy)) x hx
    intro y hy
    have hy' : (if (hd.ix == ix && hd.iy == iy) = true then some hd else acc) = some y := hy
    by_cases hcond : (hd.ix == ix && hd.iy == iy) = true
    · rw [if_pos hcond] at hy'
      cases hy'
      simp only [Bool.and_eq_true, beq_iff_eq] at hcond
      exact ⟨hsub hd (List.mem_cons_self hd tl), hcond.1, hcond.2⟩
    · rw [if_neg hcond] at hy'
      exact hacc y hy'

/-- If no scan entry matches the key, the comprehension dict misses. -/
lemma dictGet_none {scan : List BlockInDB} {ix iy : ℤ}
    (h : ∀ c ∈ scan, ¬(c.ix = ix ∧ c.iy = iy)) : dictGet scan ix iy = none := by
  unfold dictGet
  induction scan with
  | nil => rfl
  | cons hd tl ih =>
    have hhd : (hd.ix == ix && hd.iy == iy) = false := by
      have := h hd (List.mem_cons_self hd tl)
      simp only [Bool.and_eq_false_iff, beq_eq_false_iff_ne, ne_eq]
      tauto
    simp only [List.foldl_cons, hhd, if_neg]
    exact ih (fun c hc => h c (List.mem_cons_of_mem _ hc))

/-- Each materialized entry carries exactly the loop's index pair, whether
it came from storage or was synthesized. -/
lemma entry_pair (scan : List BlockInDB) (now : ℕ) (ix iy : ℤ) :
    (_create_block_model ((dictGet scan ix iy).getD ⟨ix, iy, now, none⟩)).ix = ix ∧
    (_create_block_model ((dictGet scan ix iy).getD ⟨ix, iy, now, none⟩)).iy = iy := by
  cases h : dictGet scan ix iy with
  | none => exact ⟨rfl, rfl⟩
  | some b =>
    have := (dictGet_some h).2
    exact ⟨this.1, this.2⟩

/-- The index pairs of the materialized sequence are precisely the
outer-ix/inner-iy nested enumeration of the rectangle. -/
lemma core_map_pairs (scan : List BlockInDB) (now : ℕ) (a b c d : ℤ) :
    (get_blocks_in_range_scan scan now a b c d).map (fun blk => (blk.ix, blk.iy)) =
      (intRange a c).flatMap (fun ix => (intRange b d).map (fun iy => (ix, iy))) := by
  unfold get_blocks_in_range_scan
  rw [List.map_flatMap]
  congr 1
  funext ix
  rw [List.map_map]
  congr 1
  funext iy
  have h := entry_pair scan now ix iy
  simp only [Function.comp_apply]
  exact Prod.ext h.1 h.2

/-- C10: the core range function does not normalize its corners: with
min_ix > max_ix or min_iy > max_iy it returns the empty list for every
storage state (not an error and not the swapped rectangle); the corner
sort happens only in the API layer. -/
theorem C10_core_requires_normalized_corners (storage : List BlockInDB) (now : ℕ)
    (min_ix min_iy max_ix max_iy : ℤ) :
    (max_ix < min_ix → get_blocks_in_range storage now min_ix min_iy max_ix max_iy = []) ∧
    (max_iy < min_iy → get_blocks_in_range storage now min_ix min_iy max_ix max_iy = []) := by
  constructor
  · intro h
    unfold get_blocks_in_range get_blocks_in_range_scan
    rw [intRange_eq_nil h]
    rfl
  · intro h
    unfold get_blocks_in_range get_blocks_in_range_scan
    rw [intRange_eq_nil h]
    simp

/-- Witness for C10: a storage state holding a persisted cell at (0, 0)
queried with the un-normalized corners (1, 0)-(0, 0); the swapped
rectangle would contain that cell, yet the result is empty. -/
theorem C10_core_requires_normalized_corners_witness :
    get_blocks_in_range [⟨0, 0, 5, none⟩] 7 1 0 0 0 = [] :=
  (C10_core_requires_normalized_corners [⟨0, 0, 5, none⟩] 7 1 0 0 0).1 (by norm_num)

/-- C3: within a single materialization the output order is strictly
deterministic, outer ix then inner iy, both ascending, for every scan
result (hence regardless of storage scan order); in particular the
rectangle (0,0)-(1,1) yields exactly 4 blocks indexed
(0,0),(0,1),(1,0),(1,1) in that order. -/
theorem C3_materialize_order (scan : List BlockInDB) (now : ℕ) :
    (∀ a b c d : ℤ,
      (get_blocks_in_range_scan scan now a b c d).map (fun blk => (blk.ix, blk.iy)) =
        (intRange a c).flatMap (fun ix => (intRange b d).map (fun iy => (ix, iy)))) ∧
    (get_blocks_in_range_scan scan now 0 0 1 1).map (fun blk => (blk.ix, blk.iy)) =
      [(0, 0), (0, 1), (1, 0), (1, 1)] ∧
    (get_blocks_in_range_scan scan now 0 0 1 1).length = 4 ∧
    (∀ storage : List BlockInDB,
      (get_blocks_in_range storage now 0 0 1 1).map (fun blk => (blk.ix, blk.iy)) =
        [(0, 0), (0, 1), (1, 0), (1, 1)]) := by
  have hconc : ∀ sc : List BlockInDB,
      (get_blocks_in_range_scan sc now 0 0 1 1).map (fun blk => (blk.ix, blk.iy)) =
        [(0, 0), (0, 1), (1, 0), (1, 1)] := by
    intro sc
    rw [core_map_pairs]
    rw [show intRange 0 1 = [0, 1] by unfold intRange; rfl]
    rfl
  refine ⟨core_map_pairs scan now, hconc scan, ?_, fun storage => hconc _⟩
  have := congrArg List.length (hconc scan)
  rw [List.length_map] at this
  exact this

/-- The nested rectangle enumeration has no duplicate index pairs. -/
lemma rectPairs_nodup (a b c d : ℤ) :
    ((intRange a c).flatMap (fun ix => (intRange b d).map (fun iy => (ix, iy)))).Nodup := by
  rw [List.nodup_flatMap]
  constructor
  · intro x _
    exact (intRange_nodup b d).map (fun y1 y2 h => congrArg Prod.snd h)
  · refine (intRange_nodup a c).imp ?_
    intro x1 x2 hne p hp1 hp2
    rcases List.mem_map.1 hp1 with ⟨y1, _, rfl⟩
    rcases List.mem_map.1 hp2 with ⟨y2, _, heq⟩
    exact hne (congrArg Prod.fst heq).symm

/-- Membership in the rectangle enumeration is the two bounds checks. -/
lemma mem_rectPairs {a b c d x y : ℤ} :
    (x, y) ∈ (intRange a c).flatMap (fun ix => (intRange b d).map (fun iy => (ix, iy))) ↔
      (a ≤ x ∧ x ≤ c) ∧ (b ≤ y ∧ y ≤ d) := by
  simp only [List.mem_flatMap, List.mem_map, mem_intRange, Prod.mk.injEq]
  constructor
  · rintro ⟨ix, hix, iy, hiy, rfl, rfl⟩
    exact ⟨hix, hiy⟩
  · rintro ⟨hx, hy⟩
    exact ⟨x, hx, y, hy, rfl, rfl⟩

/-- On a duplicate-free list, a predicate holding exactly at one element of
the list counts exactly one hit. -/
lemma countP_eq_one_of_nodup_mem {α : Type} (p : α → Bool) {l : List α}
    (hnd : l.Nodup) {a : α} (ha : a ∈ l) (hpa : ∀ x, p x = true ↔ x = a) :
    l.countP p = 1 := by
  induction l with
  | nil => cases ha
  | cons hd tl ih =>
    rw [List.countP_cons]
    rcases List.mem_cons.mp ha with heq | hmem
    · rw [(hpa hd).mpr heq.symm]
      have h0 : tl.countP p = 0 := by
        rw [List.countP_eq_zero]
        intro x hx hpx
        have hxa : x = a := (hpa x).mp hpx
        subst hxa
        rw [heq] at hx
        exact (List.nodup_cons.mp hnd).1 hx
      rw [h0]
      rfl
    · have hn : p hd = false := by
        rcases Bool.eq_false_or_eq_true (p hd) with h | h
        · have hda : hd ∈ tl := by
            rw [(hpa hd).mp h]
            exact hmem
          exact absurd hda (List.nodup_cons.mp hnd).1
        · exact h
      rw [hn]
      simpa using ih (List.nodup_cons.mp hnd).2 hmem

/-- Every in-bounds pair occurs exactly once in the rectangle enumeration. -/
lemma rectPairs_countP {a b c d ix iy : ℤ} (h1 : a ≤ ix) (h2 : ix ≤ c)
    (h3 : b ≤ iy) (h4 : iy ≤ d) :
    ((intRange a c).flatMap (fun x => (intRange b d).map (fun y => (x, y)))).countP
      (fun p => p == (ix, iy)) = 1 :=
  countP_eq_one_of_nodup_mem _ (rectPairs_nodup a b c d)
    (mem_rectPairs.mpr ⟨⟨h1, h2⟩, ⟨h3, h4⟩⟩) (fun x => by simp)

/-- C2: for a normalized rectangle the materializer returns exactly one
EnrichedBlock per integer pair of the inclusive rectangle; every returned
block whose pair has no persisted cell is the synthesized default, with
null metadata and the freshly generated create_time; and the storage state
is returned unchanged (no write occurs). -/
theorem C2_dense_default_fill (storage : List BlockInDB) (now : ℕ)
    (min_ix min_iy max_ix max_iy : ℤ)
    (_hx : min_ix ≤ max_ix) (_hy : min_iy ≤ max_iy) :
    (∀ ix iy : ℤ, min_ix ≤ ix → ix ≤ max_ix → min_iy ≤ iy → iy ≤ max_iy →
      ((get_blocks_in_range storage now min_ix min_iy max_ix max_iy).filter
        (fun blk => (blk.ix, blk.iy) == (ix, iy))).length = 1) ∧
    (∀ blk ∈ get_blocks_in_range storage now min_ix min_iy max_ix max_iy,
      (∀ c ∈ storage, ¬(c.ix = blk.ix ∧ c.iy = blk.iy)) →
        blk.metadata = none ∧ blk.create_time = now) ∧
    (get_blocks_in_range_st storage now min_ix min_iy max_ix max_iy).2 = storage := by
  refine ⟨?_, ?_, rfl⟩
  · intro ix iy h1 h2 h3 h4
    rw [← List.countP_eq_length_filter]
    have h5 : ((get_blocks_in_range storage now min_ix min_iy max_ix max_iy).map
        (fun blk => (blk.ix, blk.iy))).countP (fun p => p == (ix, iy)) = 1 := by
      unfold get_blocks_in_range
      rw [core_map_pairs]
      exact rectPairs_countP h1 h2 h3 h4
    rw [List.countP_map] at h5
    exact h5
  · intro blk hblk hnone
    unfold get_blocks_in_range get_blocks_in_range_scan at hblk
    rw [List.mem_flatMap] at hblk
    obtain ⟨ix, hix, hblk⟩ := hblk
    rw [List.mem_map] at hblk
    obtain ⟨iy, hiy, rfl⟩ := hblk
    have hp := entry_pair (get_blocks_in_area storage min_ix min_iy max_ix max_iy) now ix iy
    have hnone' : ∀ c ∈ get_blocks_in_area storage min_ix min_iy max_ix max_iy,
        ¬(c.ix = ix ∧ c.iy = iy) := by
      intro c hc
      have hcs : c ∈ storage := (List.mem_filter.mp hc).1
      have h6 := hnone c hcs
      rw [hp.1, hp.2] at h6
      exact h6
    rw [dictGet_none hnone']
    exact ⟨rfl, rfl⟩

/-- Witness for C2 at the concrete rectangle (0,0)-(0,0) over empty
storage: exactly one block is returned for the pair (0, 0). -/
theorem C2_dense_default_fill_witness :
    ((get_blocks_in_range [] 3 0 0 0 0).filter
      (fun blk => (blk.ix, blk.iy) == ((0 : ℤ), (0 : ℤ)))).length = 1 :=
  (C2_dense_default_fill [] 3 0 0 0 0 le_rfl le_rfl).1 0 0 le_rfl le_rfl le_rfl le_rfl

/-- The materialized sequence always has exactly one entry per cell of the
(normalized) rectangle. -/
lemma core_length (scan : List BlockInDB) (now : ℕ) (a b c d : ℤ) :
    (get_blocks_in_range_scan scan now a b c d).length =
      (c + 1 - a).toNat * (d + 1 - b).toNat := by
  have h := congrArg List.length (core_map_pairs scan now a b c d)
  rw [List.length_map] at h
  rw [h, List.length_flatMap]
  have h2 : (List.length ∘ fun ix => (intRange b d).map (fun iy => (ix, iy))) =
      fun _ : ℤ => (d + 1 - b).toNat := by
    funext ix
    simp [intRange_length]
  rw [h2, List.map_const', List.sum_replicate, intRange_length, smul_eq_mul]

/-- Casting an integer through the codec multiplies it by the scale. -/
lemma coord_to_index_int (i : ℤ) : coord_to_index (i : ℚ) = i * SCALE := by
  unfold coord_to_index
  rw [show ((i : ℚ) * ((SCALE : ℤ) : ℚ)) = ((i * SCALE : ℤ) : ℚ) by push_cast; ring]
  exact ratTrunc_intCast _

/-- C1 (code bug evidence): the API size check is computed on the raw
coordinate floats before any normalization, not on the normalized index
cell count.  The request with corners (0,0) and (1,1) denotes the index
rectangle [0,10000] × [0,10000], i.e. 10001 × 10001 = 100020001 cells —
far above the configured maximum of 1000000 — yet the check evaluates
(1 - 0 + 1) * (1 - 0 + 1) = 4 < 1000000 and the request is accepted and
fully materialized instead of being rejected with RangeTooLarge. -/
theorem C1_size_check_uses_raw_coordinates :
    ∃ l, api_get_blocks_in_range [] 0 0 0 1 1 = Except.ok l ∧
      l.length = 100020001 := by
  have hcond : ¬ (BLOCKS_IN_RANGE_MAXIMUM ≤ ((1 : ℚ) - 0 + 1) * ((1 : ℚ) - 0 + 1)) := by
    unfold BLOCKS_IN_RANGE_MAXIMUM
    norm_num
  unfold api_get_blocks_in_range
  rw [if_neg hcond]
  refine ⟨_, rfl, ?_⟩
  have hmin : min (0 : ℚ) 1 = 0 := by norm_num
  have hmax : max (0 : ℚ) 1 = 1 := by norm_num
  rw [hmin, hmax]
  rw [show coord_to_index (0 : ℚ) = 0 by
        have h := coord_to_index_int 0
        push_cast at h
        simpa using h,
      show coord_to_index (1 : ℚ) = 10000 by
        have h := coord_to_index_int 1
        push_cast at h
        unfold SCALE at h
        simpa using h]
  unfold get_blocks_in_range
  rw [core_length]
  decide

/-- A repository hit carries the looked-up key. -/
lemma find_block_some {storage : List BlockInDB} {ix iy : ℤ} {b : BlockInDB}
    (h : find_block storage ix iy = some b) : b.ix = ix ∧ b.iy = iy := by
  have h2 := List.find?_some h
  simpa using h2

/-- Updating the metadata of a present cell: the refetch sees the same cell
with only its metadata field replaced. -/
lemma find_update {storage : List BlockInDB} {ix iy : ℤ} {c : BlockInDB}
    (md : BlockMetadata) (h : find_block storage ix iy = some c) :
    find_block (update_block_metadata storage ix iy md) ix iy =
      some { c with metadata := some md } := by
  induction storage with
  | nil => simp [find_block] at h
  | cons hd tl ih =>
    by_cases hcond : (hd.ix == ix && hd.iy == iy) = true
    · unfold find_block at h
      rw [List.find?_cons_of_pos (p := fun (b : BlockInDB) => b.ix == ix && b.iy == iy) _ hcond] at h
      cases h
      unfold update_block_metadata
      rw [if_pos hcond]
      unfold find_block
      exact List.find?_cons_of_pos _ hcond
    · unfold find_block at h
      rw [List.find?_cons_of_neg (p := fun (b : BlockInDB) => b.ix == ix && b.iy == iy) _ hcond] at h
      unfold update_block_metadata
      rw [if_neg hcond]
      unfold find_block
      rw [List.find?_cons_of_neg (p := fun (b : BlockInDB) => b.ix == ix && b.iy == iy) _ hcond]
      exact ih h

/-- C7: placing onto an already-persisted cell replaces its metadata
wholesale (the stored cell keeps its identity and create_time, its metadata
becomes exactly the new payload — no merge with the old one), and the
returned enriched block carries exactly the new payload, the old
create_time, and the unchanged indices. -/
theorem C7_metadata_wholesale_replacement (storage : List BlockInDB) (now : ℕ)
    (block_id : String) (ix iy : ℤ) (c : BlockInDB) (md : BlockMetadata)
    (hid : to_block_index block_id = some (ix, iy))
    (hfind : find_block storage ix iy = some c) :
    ∃ r s2, place_a_block storage now block_id md = some (r, s2) ∧
      find_block s2 ix iy = some { c with metadata := some md } ∧
      r.metadata = some md ∧ r.create_time = c.create_time ∧
      r.ix = ix ∧ r.iy = iy := by
  obtain ⟨hix, hiy⟩ := find_block_some hfind
  have hupd := find_update md hfind
  refine ⟨_create_block_model { c with metadata := some md },
    update_block_metadata storage ix iy md, ?_, hupd, rfl, rfl, hix, hiy⟩
  unfold place_a_block
  simp only [hid, hfind]
  unfold get_block
  simp only [hid, hupd]
  rfl

/-- Witness for C7: the storage state after a first place of
metadata (author "a", color "#112233") on block "00001#00001"; a second
place with (author "b", color "#445566") leaves create_time and indices
unchanged and the stored and returned metadata equal exactly the second
payload. -/
theorem C7_metadata_wholesale_replacement_witness :
    ∃ r s2, place_a_block [⟨1, 1, 5, some ⟨some "a", none, some "#112233"⟩⟩] 9
        "00001#00001" ⟨some "b", none, some "#445566"⟩ = some (r, s2) ∧
      find_block s2 1 1 =
        some ⟨1, 1, 5, some ⟨some "b", none, some "#445566"⟩⟩ ∧
      r.metadata = some ⟨some "b", none, some "#445566"⟩ ∧
      r.create_time = 5 ∧ r.ix = 1 ∧ r.iy = 1 :=
  C7_metadata_wholesale_replacement
    [⟨1, 1, 5, some ⟨some "a", none, some "#112233"⟩⟩] 9 "00001#00001" 1 1
    ⟨1, 1, 5, some ⟨some "a", none, some "#112233"⟩⟩
    ⟨some "b", none, some "#445566"⟩ (by decide) (by decide)

/-- The ten digit characters: recognizable, valued, and distinct from the
separator and sign characters. -/
lemma digitChar_spec {d : ℕ} (h : d < 10) :
    (digitChar d).isDigit = true ∧ (digitChar d).toNat - 48 = d ∧
    digitChar d ≠ '#' ∧ digitChar d ≠ '-' ∧ digitChar d ≠ '+' := by
  interval_cases d <;> exact ⟨by decide, by decide, by decide, by decide, by decide⟩

/-- A rendered natural number is a non-empty list of digit characters. -/
lemma natDigits_spec (n : ℕ) :
    natDigits n ≠ [] ∧ ∀ c ∈ natDigits n, ∃ d, d < 10 ∧ c = digitChar d := by
  induction n using Nat.strong_induction_on with
  | _ n ih =>
    by_cases h : n < 10
    · rw [natDigits.eq_def, dif_pos h]
      refine ⟨by simp, ?_⟩
      intro c hc
      rcases List.mem_singleton.mp hc with rfl
      exact ⟨n, h, rfl⟩
    · obtain ⟨ih1, ih2⟩ := ih (n / 10) (Nat.div_lt_self (by omega) (by omega))
      rw [natDigits.eq_def, dif_neg h]
      refine ⟨by simp, ?_⟩
      intro c hc
      rcases List.mem_append.mp hc with hc | hc
      · exact ih2 c hc
      · rcases List.mem_singleton.mp hc with rfl
        exact ⟨n % 10, Nat.mod_lt _ (by omega), rfl⟩

/-- The decimal parsing loop processes a concatenation left to right. -/
lemma parseNatAux_append (l1 l2 : List Char) : ∀ acc : ℕ,
    parseNatAux acc (l1 ++ l2) =
      (parseNatAux acc l1).bind (fun a => parseNatAux a l2) := by
  induction l1 with
  | nil => intro acc; rfl
  | cons c rest ih =>
    intro acc
    simp only [List.cons_append, parseNatAux]
    by_cases hc : c.isDigit = true
    · rw [if_pos hc, if_pos hc]
      exact ih _
    · rw [if_neg hc, if_neg hc]
      rfl

/-- Parsing the rendered digits of n recovers n (with the accumulator
shifted by the digit count). -/
lemma parseNatAux_natDigits (n : ℕ) : ∀ acc : ℕ,
    parseNatAux acc (natDigits n) =
      some (acc * 10 ^ (natDigits n).length + n) := by
  induction n using Nat.strong_induction_on with
  | _ n ih =>
    intro acc
    by_cases h : n < 10
    · rw [natDigits.eq_def, dif_pos h]
      obtain ⟨hdig, hval, -, -, -⟩ := digitChar_spec h
      show (if (digitChar n).isDigit = true then
          parseNatAux (acc * 10 + ((digitChar n).toNat - 48)) [] else none) = _
      rw [if_pos hdig, hval]
      show some (acc * 10 + n) = some (acc * 10 ^ ([digitChar n]).length + n)
      norm_num
    · rw [natDigits.eq_def, dif_neg h]
      rw [parseNatAux_append]
      rw [ih (n / 10) (Nat.div_lt_self (by omega) (by omega)) acc]
      obtain ⟨hdig, hval, -, -, -⟩ := digitChar_spec (Nat.mod_lt n (show 0 < 10 by omega))
      show (if (digitChar (n % 10)).isDigit = true then
          parseNatAux ((acc * 10 ^ (natDigits (n / 10)).length + n / 10) * 10 +
            ((digitChar (n % 10)).toNat - 48)) [] else none) = _
      rw [if_pos hdig, hval]
      have h1 : (acc * 10 ^ (natDigits (n / 10)).length + n / 10) * 10 + n % 10 =
          acc * (10 ^ (natDigits (n / 10)).length * 10) + (n / 10 * 10 + n % 10) := by
        ring
      have h2 : n / 10 * 10 + n % 10 = n := by omega
      have h3 : (natDigits (n / 10) ++ [digitChar (n % 10)]).length =
          (natDigits (n / 10)).length + 1 := by
        simp
      rw [h3, pow_succ]
      show some ((acc * 10 ^ (natDigits (n / 10)).length + n / 10) * 10 + n % 10) = _
      rw [h1, h2]

/-- Leading zero padding leaves the accumulator at zero. -/
lemma parseNatAux_zeros (k : ℕ) : parseNatAux 0 (List.replicate k '0') = some 0 := by
  induction k with
  | zero => rfl
  | succ k ih =>
    simp only [List.replicate_succ, parseNatAux]
    rw [if_pos (by decide)]
    exact ih

/-- On a non-empty all-digit string, the sign cases of int() do not fire. -/
lemma parseInt_of_digits (l : List Char) (hne : l ≠ [])
    (hd : ∀ c ∈ l, c.isDigit = true ∧ c ≠ '#' ∧ c ≠ '-' ∧ c ≠ '+') :
    parseInt l = (parseNatAux 0 l).map (fun n => (n : ℤ)) := by
  cases l with
  | nil => exact absurd rfl hne
  | cons c rest =>
    obtain ⟨-, -, h2, h3⟩ := hd c (List.mem_cons_self c rest)
    simp only [parseInt]
    rw [if_neg h2, if_neg h3]
    rfl

/-- A zero-filled rendering of a non-negative int is a non-empty all-digit
string. -/
lemma zfill_digits {w : ℕ} {n : ℤ} (h : 0 ≤ n) :
    zfill w n ≠ [] ∧
    ∀ c ∈ zfill w n, c.isDigit = true ∧ c ≠ '#' ∧ c ≠ '-' ∧ c ≠ '+' := by
  unfold zfill
  rw [if_neg (by omega)]
  constructor
  · intro hcontra
    exact (natDigits_spec n.toNat).1 (List.append_eq_nil.mp hcontra).2
  · intro c hc
    rcases List.mem_append.mp hc with hc | hc
    · rcases (List.mem_replicate.mp hc).2 with rfl
      exact ⟨by decide, by decide, by decide, by decide⟩
    · obtain ⟨d, hd10, rfl⟩ := (natDigits_spec n.toNat).2 c hc
      obtain ⟨a1, -, a3, a4, a5⟩ := digitChar_spec hd10
      exact ⟨a1, a3, a4, a5⟩

/-- Parsing a zero-filled non-negative int recovers it, for every width. -/
lemma parseInt_zfill {w : ℕ} {n : ℤ} (h : 0 ≤ n) :
    parseInt (zfill w n) = some n := by
  obtain ⟨hne, hdig⟩ := zfill_digits (w := w) h
  rw [parseInt_of_digits _ hne hdig]
  unfold zfill
  rw [if_neg (by omega)]
  rw [parseNatAux_append, parseNatAux_zeros]
  show (parseNatAux 0 (natDigits n.toNat)).map (fun m => (m : ℤ)) = some n
  rw [parseNatAux_natDigits n.toNat 0]
  simp [Int.toNat_of_nonneg h]

/-- Splitting a separator-free string yields the single piece. -/
lemma splitOnChar_of_not_mem {sep : Char} {l : List Char} (h : sep ∉ l) :
    splitOnChar sep l = [l] := by
  induction l with
  | nil => rfl
  | cons c rest ih =>
    have hcs : ¬(c = sep) := by
      intro hc
      rw [← hc] at h
      exact h (List.mem_cons_self c rest)
    simp only [splitOnChar]
    rw [if_neg hcs, ih (fun hm => h (List.mem_cons_of_mem _ hm))]
    rfl

/-- Splitting recovers the two parts around a single separator. -/
lemma splitOnChar_append (sep : Char) (a b : List Char)
    (ha : sep ∉ a) (hb : sep ∉ b) :
    splitOnChar sep (a ++ sep :: b) = [a, b] := by
  induction a with
  | nil =>
    simp only [List.nil_append, splitOnChar]
    rw [if_pos trivial, splitOnChar_of_not_mem hb]
  | cons c rest ih =>
    have hcs : ¬(c = sep) := by
      intro hc
      rw [← hc] at ha
      exact ha (List.mem_cons_self c rest)
    simp only [List.cons_append, splitOnChar, List.append_eq]
    rw [if_neg hcs, ih (fun hm => ha (List.mem_cons_of_mem _ hm))]
    rfl

/-- C8: the block identity round-trips,
`toBlockIndex(toBlockId(ix, iy)) == (ix, iy)`, for all non-negative index
pairs up to SCALE. -/
theorem C8_block_id_roundtrip (ix iy : ℤ) (h1 : 0 ≤ ix) (_h2 : ix ≤ SCALE)
    (h3 : 0 ≤ iy) (_h4 : iy ≤ SCALE) :
    to_block_index (to_block_id ix iy) = some (ix, iy) := by
  unfold to_block_index to_block_id
  have hx := zfill_digits (w := (natDigits SCALE.toNat).length) h1
  have hy := zfill_digits (w := (natDigits SCALE.toNat).length) h3
  have hxh : '#' ∉ zfill (natDigits SCALE.toNat).length ix :=
    fun hm => (hx.2 '#' hm).2.1 rfl
  have hyh : '#' ∉ zfill (natDigits SCALE.toNat).length iy :=
    fun hm => (hy.2 '#' hm).2.1 rfl
  show (match splitOnChar '#' (zfill (natDigits SCALE.toNat).length ix ++
      '#' :: zfill (natDigits SCALE.toNat).length iy) with
    | [a, b] =>
      match parseInt a, parseInt b with
      | some x, some y => some (x, y)
      | _, _ => none
    | _ => none) = some (ix, iy)
  rw [splitOnChar_append _ _ _ hxh hyh]
  show (match parseInt (zfill (natDigits SCALE.toNat).length ix),
      parseInt (zfill (natDigits SCALE.toNat).length iy) with
    | some x, some y => some (x, y)
    | _, _ => none) = some (ix, iy)
  rw [parseInt_zfill h1, parseInt_zfill h3]

/-- Witness for C8 at the corner pair (10000, 1) of the valid range. -/
theorem C8_block_id_roundtrip_witness :
    to_block_index (to_block_id 10000 1) = some (10000, 1) :=
  C8_block_id_roundtrip 10000 1 (by decide) (by decide) (by decide) (by decide)

/-- Evaluate a rational floor from its two defining bounds. -/
lemma floor_eval {q : ℚ} (z : ℤ) (h1 : (z : ℚ) ≤ q) (h2 : q < (z : ℚ) + 1) :
    ⌊q⌋ = z := by
  rw [Int.floor_eq_iff]
  exact ⟨h1, h2⟩

/-- Rounding an exact integer is the identity. -/
lemma roundHE_intCast (z : ℤ) : roundHE ((z : ℚ)) = z := by
  unfold roundHE
  rw [Int.floor_intCast]
  rw [if_pos (by norm_num)]

/-- One-digit rendering. -/
lemma natDigits_small {n : ℕ} (h : n < 10) : natDigits n = [digitChar n] := by
  rw [natDigits.eq_def, dif_pos h]

/-- Two-digit rendering. -/
lemma natDigits_two {n : ℕ} (h1 : 10 ≤ n) (h2 : n < 100) :
    natDigits n = [digitChar (n / 10), digitChar (n % 10)] := by
  rw [natDigits.eq_def, dif_neg (by omega), natDigits_small (by omega)]
  rfl

/-- Fixed-point rendering of a non-negative value whose rounded scaled
numerator is known. -/
lemma fmtFixed_eval_nonneg (prec : ℕ) (q : ℚ) (n p : ℤ)
    (hp : ((10 : ℤ)) ^ prec = p) (hq : ¬ q < 0)
    (hn : roundHE (|q| * (p : ℚ)) = n) :
    fmtFixed prec q =
      String.mk (natDigits (n / p).toNat ++
        '.' :: padZeros prec (natDigits (n % p).toNat)) := by
  simp only [fmtFixed]
  rw [hp, hn, if_neg hq]
  rfl

/-- The seconds component 0.36 of the 0.0001-degree corner. -/
lemma fmtFixed_nine_twentyfifths : fmtFixed 2 (9 / 25 : ℚ) = "0.36" := by
  have hround : roundHE (|(9 / 25 : ℚ)| * ((100 : ℤ) : ℚ)) = 36 := by
    rw [show |(9 / 25 : ℚ)| * ((100 : ℤ) : ℚ) = ((36 : ℤ) : ℚ) by
      rw [abs_of_nonneg (by norm_num)]
      push_cast
      norm_num]
    exact roundHE_intCast 36
  rw [fmtFixed_eval_nonneg 2 (9 / 25) 36 100 (by norm_num) (by norm_num) hround]
  rw [show ((36 : ℤ) / 100).toNat = 0 by decide, show ((36 : ℤ) % 100).toNat = 36 by decide]
  rw [natDigits_small (by omega), natDigits_two (by omega) (by omega)]
  decide

/-- The hemisphere letter is always the last character of the rendered DMS
component, N/S by latitude sign and E/W by longitude sign. -/
lemma to_dms_last (v : ℚ) (b : Bool) :
    (to_dms v b).toList.getLast? =
      some (if b then (if 0 ≤ v then 'N' else 'S')
            else if 0 ≤ v then 'E' else 'W') := by
  have key : ∀ (s1 s2 : List Char) (c e x y : Char),
      (c :: (s1 ++ e :: (s2 ++ [x, y]))).getLast? = some y := by
    intro s1 s2 c e x y
    rw [show c :: (s1 ++ e :: (s2 ++ [x, y])) = ((c :: s1) ++ (e :: s2)) ++ [x, y] by
      simp]
    rw [List.getLast?_append]
    rfl
  cases b <;> by_cases h : 0 ≤ v <;>
    simp [to_dms, dmsHemi, h, String.toList, List.getLast?_append] <;>
    exact key _ _ _ _ _ _

/-- C9: hemisphere letters are chosen by sign and axis — zero or positive
latitude renders N, negative latitude S, zero or positive longitude E,
negative longitude W — and the concrete pair (-0.0001, 0.0001) renders S
and E. -/
theorem C9_hemisphere_letters :
    (∀ lat lon : ℚ,
      format_dms lat lon = to_dms lat true ++ ", " ++ to_dms lon false ∧
      (to_dms lat true).toList.getLast? = some (if 0 ≤ lat then 'N' else 'S') ∧
      (to_dms lon false).toList.getLast? = some (if 0 ≤ lon then 'E' else 'W')) ∧
    format_dms (-1 / 10000) (1 / 10000) = "0°0′0.36″S, 0°0′0.36″E" := by
  constructor
  · intro lat lon
    refine ⟨rfl, ?_, ?_⟩
    · rw [to_dms_last]
      rfl
    · rw [to_dms_last]
      rfl
  · have habs : |(-1 / 10000 : ℚ)| = 1 / 10000 := by
      rw [abs_of_neg (by norm_num)]
      norm_num
    have habs2 : |(1 / 10000 : ℚ)| = 1 / 10000 := abs_of_nonneg (by norm_num)
    have hdeg : dmsDeg (-1 / 10000) = 0 := by
      unfold dmsDeg
      rw [habs]
      exact floor_eval 0 (by norm_num) (by norm_num)
    have hdeg2 : dmsDeg (1 / 10000) = 0 := by
      unfold dmsDeg
      rw [habs2]
      exact floor_eval 0 (by norm_num) (by norm_num)
    have hmf : dmsMinutesFull (-1 / 10000) = 3 / 500 := by
      unfold dmsMinutesFull
      rw [habs, hdeg]
      push_cast
      norm_num
    have hmf2 : dmsMinutesFull (1 / 10000) = 3 / 500 := by
      unfold dmsMinutesFull
      rw [habs2, hdeg2]
      push_cast
      norm_num
    have hmin : dmsMinutes (-1 / 10000) = 0 := by
      unfold dmsMinutes
      rw [hmf]
      exact floor_eval 0 (by norm_num) (by norm_num)
    have hmin2 : dmsMinutes (1 / 10000) = 0 := by
      unfold dmsMinutes
      rw [hmf2]
      exact floor_eval 0 (by norm_num) (by norm_num)
    have hsec : dmsSeconds (-1 / 10000) = 9 / 25 := by
      unfold dmsSeconds
      rw [hmf, hmin]
      push_cast
      norm_num
    have hsec2 : dmsSeconds (1 / 10000) = 9 / 25 := by
      unfold dmsSeconds
      rw [hmf2, hmin2]
      push_cast
      norm_num
    unfold format_dms to_dms
    rw [hdeg, hdeg2, hmin, hmin2, hsec, hsec2, fmtFixed_nine_twentyfifths]
    unfold dmsHemi
    rw [if_pos rfl]
    rw [if_neg (by decide : ¬ (false = true))]
    rw [if_neg (by norm_num : ¬ (0 : ℚ) ≤ -1 / 10000)]
    rw [if_pos (by norm_num : (0 : ℚ) ≤ 1 / 10000)]
    rw [show ((0 : ℤ)).toNat = 0 from rfl, natDigits_small (by omega)]
    decide

/-- The rendered seconds of the carry-critical input: 59.999 exact seconds
round up to the printed "60.00". -/
lemma fmtFixed_59999 : fmtFixed 2 (59999 / 1000 : ℚ) = "60.00" := by
  have hround : roundHE (|(59999 / 1000 : ℚ)| * ((100 : ℤ) : ℚ)) = 6000 := by
    rw [show |(59999 / 1000 : ℚ)| * ((100 : ℤ) : ℚ) = 59999 / 10 by
      rw [abs_of_nonneg (by norm_num)]
      push_cast
      norm_num]
    unfold roundHE
    rw [floor_eval 5999 (by norm_num) (by norm_num)]
    rw [if_neg (by norm_num), if_pos (by norm_num)]
    norm_num
  rw [fmtFixed_eval_nonneg 2 (59999 / 1000) 6000 100 (by norm_num) (by norm_num) hround]
  rw [show ((6000 : ℤ) / 100).toNat = 60 by decide,
      show ((6000 : ℤ) % 100).toNat = 0 by decide]
  rw [natDigits_two (by omega) (by omega), natDigits_small (by omega)]
  decide

/-- C4 (code bug evidence): `format_dms` has no minute/second carry — at
latitude and longitude 59999/3600000 (whose exact seconds value is 59.999)
the 2-decimal rendering rounds up and the output displays the invalid
seconds value 60.00 on both axes. -/
theorem C4_seconds_render_sixty :
    format_dms (59999 / 3600000) (59999 / 3600000) =
      "0°0′60.00″N, 0°0′60.00″E" := by
  have habs : |(59999 / 3600000 : ℚ)| = 59999 / 3600000 := abs_of_nonneg (by norm_num)
  have hdeg : dmsDeg (59999 / 3600000) = 0 := by
    unfold dmsDeg
    rw [habs]
    exact floor_eval 0 (by norm_num) (by norm_num)
  have hmf : dmsMinutesFull (59999 / 3600000) = 59999 / 60000 := by
    unfold dmsMinutesFull
    rw [habs, hdeg]
    push_cast
    norm_num
  have hmin : dmsMinutes (59999 / 3600000) = 0 := by
    unfold dmsMinutes
    rw [hmf]
    exact floor_eval 0 (by norm_num) (by norm_num)
  have hsec : dmsSeconds (59999 / 3600000) = 59999 / 1000 := by
    unfold dmsSeconds
    rw [hmf, hmin]
    push_cast
    norm_num
  unfold format_dms to_dms
  rw [hdeg, hmin, hsec, fmtFixed_59999]
  unfold dmsHemi
  rw [if_pos rfl]
  rw [if_neg (by decide : ¬ (false = true))]
  rw [if_pos (by norm_num : (0 : ℚ) ≤ 59999 / 3600000),
      if_pos (by norm_num : (0 : ℚ) ≤ 59999 / 3600000)]
  rw [show ((0 : ℤ)).toNat = 0 from rfl, natDigits_small (by omega)]
  decide

/-- The 4-decimal rendering of the 0.0001-degree corner. -/
lemma fmtFixed_one_tenthousandth : fmtFixed 4 (1 / 10000 : ℚ) = "0.0001" := by
  have hround : roundHE (|(1 / 10000 : ℚ)| * ((10000 : ℤ) : ℚ)) = 1 := by
    rw [show |(1 / 10000 : ℚ)| * ((10000 : ℤ) : ℚ) = ((1 : ℤ) : ℚ) by
      rw [abs_of_nonneg (by norm_num)]
      push_cast
      norm_num]
    exact roundHE_intCast 1
  rw [fmtFixed_eval_nonneg 4 (1 / 10000) 1 10000 (by norm_num) (by norm_num) hround]
  rw [show ((1 : ℤ) / 10000).toNat = 0 by decide,
      show ((1 : ℤ) % 10000).toNat = 1 by decide]
  rw [natDigits_small (show (0 : ℕ) < 10 by omega),
      natDigits_small (show (1 : ℕ) < 10 by omega)]
  decide

/-- The decimal-degrees label of the minimum corner of cell (1, 1). -/
lemma format_dd_corner :
    format_dd (1 / 10000) (1 / 10000) = "Lat 0.0001°, Lon 0.0001°" := by
  unfold format_dd
  rw [fmtFixed_one_tenthousandth]
  decide

/-- C6: enrichment computes the half-open cell extent
lon = [indexToCoord ix, indexToCoord (ix+1)], lat likewise, the block_id
via toBlockId, and both display labels from the minimum corner; placing
block "00001#00001" concretely yields lon = [0.0001, 0.0002],
lat = [0.0001, 0.0002] and visible_name_dd = "Lat 0.0001°, Lon 0.0001°". -/
theorem C6_enrichment_from_min_corner :
    (∀ b : BlockInDB,
      (_create_block_model b).lon = (index_to_coord b.ix, index_to_coord (b.ix + 1)) ∧
      (_create_block_model b).lat = (index_to_coord b.iy, index_to_coord (b.iy + 1)) ∧
      (_create_block_model b).block_id = to_block_id b.ix b.iy ∧
      (_create_block_model b).visible_name_dd =
        format_dd (index_to_coord b.iy) (index_to_coord b.ix) ∧
      (_create_block_model b).visible_name_dms =
        format_dms (index_to_coord b.iy) (index_to_coord b.ix)) ∧
    (∃ r s2,
      place_a_block [] 7 "00001#00001" ⟨some "demo_user", none, some "#3498db"⟩ =
        some (r, s2) ∧
      r.lon = (1 / 10000, 2 / 10000) ∧ r.lat = (1 / 10000, 2 / 10000) ∧
      r.visible_name_dd = "Lat 0.0001°, Lon 0.0001°") := by
  have hco : index_to_coord 1 = (1 / 10000 : ℚ) := by
    unfold index_to_coord STEP
    norm_num
  refine ⟨fun b => ⟨rfl, rfl, rfl, rfl, rfl⟩,
    _create_block_model ⟨1, 1, 7, some ⟨some "demo_user", none, some "#3498db"⟩⟩,
    [⟨1, 1, 7, some ⟨some "demo_user", none, some "#3498db"⟩⟩], rfl, ?_, ?_, ?_⟩
  · show (index_to_coord 1, index_to_coord 2) = ((1 / 10000 : ℚ), (2 / 10000 : ℚ))
    unfold index_to_coord STEP
    norm_num
  · show (index_to_coord 1, index_to_coord 2) = ((1 / 10000 : ℚ), (2 / 10000 : ℚ))
    unfold index_to_coord STEP
    norm_num
  · show format_dd (index_to_coord 1) (index_to_coord 1) = "Lat 0.0001°, Lon 0.0001°"
    rw [hco]
    exact format_dd_corner

end Worldplace
